import Mathlib

set_option linter.unusedVariables false

/-! Shallow embedding of the book-generator core: the table-of-contents data
model (src/table_of_contents.py), the generation orchestrator
(src/book_generator.py) and the content-generation retry policy
(src/content_generation.py), together with theorems checking the
specification against them. -/

/-- Model of a Python value as produced by json.loads (a JSON value). -/
inductive PyVal where
  | str (s : String)
  | int (n : Int)
  | bool (b : Bool)
  | null
  | list (xs : List PyVal)
  | dict (fields : List (String × PyVal))

/-- Python whitespace as used by str.strip and the regex class \s, restricted to
the ASCII range (all inputs appearing in the specification are ASCII). -/
def isPySpace (c : Char) : Bool :=
  c = ' ' || c = '\t' || c = '\n' || c = '\r' || c = '\x0b' || c = '\x0c'

/-- Python str.strip on a character list: drop whitespace from both ends. -/
def pyStripChars (cs : List Char) : List Char :=
  ((cs.dropWhile isPySpace).reverse.dropWhile isPySpace).reverse

/-- Python str.strip on strings. -/
def pyStrip (s : String) : String := String.mk (pyStripChars s.toList)

/-- The Python exceptions that can escape the table-of-contents code paths.
BookGenerationError is the repository's own exception class (errors.py);
the spec calls its TOC_PARSE_ERROR form TocParseError and its
TOC_UPDATE_ERROR form TocUpdateError. -/
inductive PyErr where
  | bookGenerationError (message : String) (errorCode : Option String)
  | valueError (message : String)
  | attributeError
  | typeError
  deriving Repr, DecidableEq

/-- A chapter as held by TableOfContents (dataclass Chapter, after
construction has succeeded: string title, string subchapters, int number). -/
structure Chapter where
  title : String
  subchapters : List String
  number : Int
  deriving Repr, DecidableEq

/-- Whether a dynamic value is a Python str (isinstance(x, str)). -/
def isStrVal : PyVal → Bool
  | .str _ => true
  | _ => false

/-- The string carried by a PyVal.str (only applied to values that passed
isStrVal). -/
def strValOrEmpty : PyVal → String
  | .str s => s
  | _ => ""

/-- Models dataclass construction Chapter(title=..., subchapters=..., number=...)
followed by Chapter.__post_init__ (table_of_contents.py lines 8-23).
The title and subchapters arrive as dynamic values read from JSON:
a non-string title makes title.strip() raise AttributeError; a blank title is
replaced by a numbered placeholder when number > 0 and by "Untitled Chapter"
otherwise; subchapters must be iterable with every element a string, else
ValueError ("All subchapters must be strings"); iterating a non-iterable
raises TypeError. Iterating a Python str yields its characters and iterating
a dict yields its keys, both strings, so such values pass the check; they are
modelled by the corresponding lists of strings, which is how they behave under
all later iteration and length observations. -/
def mkChapter (title subchapters : PyVal) (number : Int) : Except PyErr Chapter :=
  match title with
  | .str t =>
    let t2 := if pyStrip t = "" then
        (if number > 0 then "Chapter " ++ toString number else "Untitled Chapter")
      else t
    match subchapters with
    | .list xs =>
        if xs.all isStrVal then
          .ok { title := t2, subchapters := xs.map strValOrEmpty, number := number }
        else .error (.valueError "All subchapters must be strings")
    | .str s => .ok { title := t2, subchapters := s.toList.map (fun c => String.mk [c]), number := number }
    | .dict fields => .ok { title := t2, subchapters := fields.map (fun f => f.1), number := number }
    | _ => .error .typeError
  | _ => .error .attributeError

/-- Models Python dict.get(key, default) on a JSON-derived value; calling .get
on a non-dict raises AttributeError. -/
def pyGet (v : PyVal) (key : String) (dflt : PyVal) : Except PyErr PyVal :=
  match v with
  | .dict fields => .ok ((fields.lookup key).getD dflt)
  | _ => .error .attributeError

/-- Models Python iteration (for x in v) over a JSON-derived value: a list
yields its elements, a dict yields its keys, a str yields its characters and
anything else raises TypeError. -/
def pyIter (v : PyVal) : Except PyErr (List PyVal) :=
  match v with
  | .list xs => .ok xs
  | .dict fields => .ok (fields.map (fun f => PyVal.str f.1))
  | .str s => .ok (s.toList.map (fun c => PyVal.str (String.mk [c])))
  | _ => .error .typeError

/-- Left-to-right effectful map that stops at the first raised exception, the
evaluation order of a Python list comprehension over fallible element
expressions. -/
def mapExcept (f : α → Except PyErr β) : List α → Except PyErr (List β)
  | [] => .ok []
  | x :: xs => do
    let y ← f x
    let ys ← mapExcept f xs
    .ok (y :: ys)

/-- Models the body of the comprehension in TableOfContents._parse_toc
(lines 38-44): Chapter(title=chapter.get('title', ''),
subchapters=chapter.get('subchapters', [])), with the dataclass default
number = 0. -/
def parseChapterObj (v : PyVal) : Except PyErr Chapter := do
  let t ← pyGet v "title" (.str "")
  let subs ← pyGet v "subchapters" (.list [])
  mkChapter t subs 0

/-- Models TableOfContents._parse_toc (lines 33-46) after _clean_response:
the result of json.loads on the cleaned text is passed in, with Except.error
carrying the str of the json.JSONDecodeError. Only a JSONDecodeError is
caught and wrapped as BookGenerationError with code TOC_PARSE_ERROR; the
exceptions raised while building chapters propagate unwrapped. -/
def parseToc (loaded : Except String PyVal) : Except PyErr (List Chapter) :=
  match loaded with
  | .error e =>
      .error (.bookGenerationError ("Invalid TOC format: " ++ e) (some "TOC_PARSE_ERROR"))
  | .ok v => do
    let items ← pyIter v
    mapExcept parseChapterObj items

/-- Models the loop of TableOfContents._assign_numbers (lines 63-66) with the
running 1-based index made explicit. -/
def assignNumbersFrom (n : Int) : List Chapter → List Chapter
  | [] => []
  | c :: rest => { c with number := n } :: assignNumbersFrom (n + 1) rest

/-- Models TableOfContents._assign_numbers: for idx, chapter in
enumerate(self.chapters, 1): chapter.number = idx. -/
def assignNumbers (chapters : List Chapter) : List Chapter :=
  assignNumbersFrom 1 chapters

/-- Models TableOfContents.__init__ (lines 28-31): parse, then assign the
chapter numbers. The state of a constructed TableOfContents is its chapter
list; a raised exception means no object exists. -/
def tocInit (loaded : Except String PyVal) : Except PyErr (List Chapter) :=
  (parseToc loaded).map assignNumbers

/-- The chapter anchor emitted in markdown links: chapter-(number). -/
def chapterAnchor (n : Int) : String := "chapter-" ++ toString n

/-- The subchapter anchor emitted in markdown links: chapter-(number)-(idx). -/
def subchapterAnchor (n : Int) (idx : Nat) : String :=
  "chapter-" ++ toString n ++ "-" ++ toString idx

/-- The per-chapter line of to_markdown (line 72). -/
def chapterLine (c : Chapter) : String :=
  toString c.number ++ ". [" ++ c.title ++ "](#" ++ chapterAnchor c.number ++ ")"

/-- The per-subchapter line of to_markdown (line 74), idx 1-based. -/
def subchapterLine (c : Chapter) (idx : Nat) (sub : String) : String :=
  "    * [" ++ toString c.number ++ "." ++ toString idx ++ ". " ++ sub ++ "](#"
    ++ subchapterAnchor c.number idx ++ ")"

/-- The list of lines built by TableOfContents.to_markdown (lines 68-75). -/
def tocMarkdownLines (chapters : List Chapter) : List String :=
  "# Table of Contents\n" ::
    chapters.flatMap (fun c =>
      chapterLine c :: c.subchapters.enum.map (fun p => subchapterLine c (p.1 + 1) p.2))

/-- Models TableOfContents.to_markdown: newline-joined lines plus a blank
line. -/
def tocMarkdown (chapters : List Chapter) : String :=
  String.intercalate "\n" (tocMarkdownLines chapters) ++ "\n\n"

/-- Models TableOfContents.to_json (lines 85-95) at the level of the JSON
value serialized by json.dumps; the json.dumps / json.loads round trip on
such values is the Python library boundary. -/
def tocToJson (chapters : List Chapter) : PyVal :=
  .list (chapters.map (fun c =>
    .dict [("title", .str c.title),
           ("subchapters", .list (c.subchapters.map PyVal.str)),
           ("number", .int c.number)]))

/-- Models the body of the comprehension in
TableOfContents.update_from_json (lines 101-108):
Chapter(title=chapter.get('title', ''), subchapters=chapter.get('subchapters', []),
number=chapter.get('number', 0)). The model restricts the number field to
integers (the source performs no type validation there, and no behaviour
claimed of the system exercises a non-integer number). -/
def updateChapterObj (v : PyVal) : Except PyErr Chapter := do
  let t ← pyGet v "title" (.str "")
  let subs ← pyGet v "subchapters" (.list [])
  let num ← pyGet v "number" (.int 0)
  match num with
  | .int n => mkChapter t subs n
  | _ => .error .typeError

/-- Models TableOfContents.update_from_json (lines 97-110). The previous
chapter list is the first argument; self.chapters is assigned only after the
whole comprehension has been evaluated, so a raised exception leaves the old
list in place (see tocAfterUpdate). Only json.JSONDecodeError is caught and
wrapped with code TOC_UPDATE_ERROR. -/
def updateFromJson (chapters : List Chapter) (loaded : Except String PyVal) :
    Except PyErr (List Chapter) :=
  match loaded with
  | .error e =>
      .error (.bookGenerationError ("Invalid TOC JSON format: " ++ e) (some "TOC_UPDATE_ERROR"))
  | .ok v => do
    let items ← pyIter v
    mapExcept updateChapterObj items

/-- The chapter list held by a TableOfContents after an update attempt: on
success the parsed list replaces it wholesale, on a raised exception the
previous list is untouched. -/
def tocAfterUpdate (chapters : List Chapter) (loaded : Except String PyVal) : List Chapter :=
  match updateFromJson chapters loaded with
  | .ok cs => cs
  | .error _ => chapters

/-- Binding a successful Except value applies the continuation directly. -/
theorem exceptOkBind {ε α β : Type} (a : α) (f : α → Except ε β) :
    (Except.ok (ε := ε) a >>= f) = f a := rfl

/-- Unfolding equation for mapExcept on a cons cell. -/
theorem mapExcept_cons (f : α → Except PyErr β) (x : α) (xs : List α) :
    mapExcept f (x :: xs)
      = (f x >>= fun y => mapExcept f xs >>= fun ys => .ok (y :: ys)) := rfl

/-- Numbers assigned by the enumerate loop: position offset by the start. -/
theorem assignNumbersFrom_map_number (cs : List Chapter) :
    ∀ n : Int, (assignNumbersFrom n cs).map Chapter.number
      = (List.range cs.length).map (fun (i : Nat) => n + (i : Int)) := by
  induction cs with
  | nil => intro n; rfl
  | cons c rest ih =>
    intro n
    simp only [assignNumbersFrom, List.map_cons, List.length_cons,
      List.range_succ_eq_map, List.map_map, ih (n + 1)]
    congr 1
    · simp
    · apply List.map_congr_left
      intro i _
      simp only [Function.comp_apply, Nat.succ_eq_add_one]
      push_cast
      ring

/-- assignNumbersFrom keeps the length. -/
theorem assignNumbersFrom_length (cs : List Chapter) :
    ∀ n : Int, (assignNumbersFrom n cs).length = cs.length := by
  induction cs with
  | nil => intro n; rfl
  | cons c rest ih => intro n; simp [assignNumbersFrom, ih]

/-- C2 (amended): after initial construction (parse), the chapter numbers form
the contiguous run 1..N matching sequence position. (The original claim also
asserted this after update_from_json; that part fails, see the
counterexample.) -/
theorem parse_assigns_contiguous_numbers (loaded : Except String PyVal)
    (cs : List Chapter) (h : tocInit loaded = .ok cs) :
    cs.map Chapter.number = (List.range cs.length).map (fun (i : Nat) => (i : Int) + 1) := by
  have hcs : ∃ cs', parseToc loaded = .ok cs' ∧ cs = assignNumbers cs' := by
    unfold tocInit at h
    cases hp : parseToc loaded with
    | error e => rw [hp] at h; cases h
    | ok cs' => rw [hp] at h; cases h; exact ⟨cs', rfl, rfl⟩
  obtain ⟨cs', hp, rfl⟩ := hcs
  unfold assignNumbers
  rw [assignNumbersFrom_map_number, assignNumbersFrom_length]
  apply List.map_congr_left
  intro i _
  ring

/-- Witness for the amended C2 theorem at a concrete parsed input. -/
theorem parse_assigns_contiguous_numbers_witness :
    [({ title := "Untitled Chapter", subchapters := [], number := 1 } : Chapter)].map
        Chapter.number
      = (List.range ([({ title := "Untitled Chapter", subchapters := [], number := 1 } : Chapter)]).length).map
          (fun (i : Nat) => (i : Int) + 1) :=
  parse_assigns_contiguous_numbers (.ok (.list [.dict []])) _ rfl

/-- C2 counterexample: an update_from_json mutation that leaves a chapter
number out of step with its 1-based position, so the contiguity invariant does
not survive load-from-edit. The starting TableOfContents is legitimately
constructed from the empty JSON array. -/
theorem update_breaks_contiguous_numbering :
    tocInit (.ok (.list [])) = .ok ([] : List Chapter)
    ∧ updateFromJson []
        (.ok (.list [.dict [("title", .str "B"), ("subchapters", .list []), ("number", .int 5)]]))
        = .ok [{ title := "B", subchapters := [], number := 5 }]
    ∧ [({ title := "B", subchapters := [], number := 5 } : Chapter)].map Chapter.number
        ≠ (List.range 1).map (fun (i : Nat) => (i : Int) + 1) :=
  ⟨rfl, rfl, by decide⟩

/-- C4: update_from_json trusts the number field of the edited form: reloading
the single-chapter edited form with number 5 yields a chapter numbered 5,
whatever the previous chapter list was. -/
theorem reload_preserves_edited_number (chapters : List Chapter) :
    updateFromJson chapters
        (.ok (.list [.dict [("title", .str "A"), ("subchapters", .list []), ("number", .int 5)]]))
      = .ok [{ title := "A", subchapters := [], number := 5 }] := rfl

/-- C5 (amended): input whose payload fails JSON decoding raises
BookGenerationError with code TOC_PARSE_ERROR carrying the decoder's
diagnostic, and the exception propagates out of construction; but a top level
that is valid JSON without being an array is not detected by that guard: an
empty JSON object constructs an empty TableOfContents, and a JSON number
raises a plain TypeError. -/
theorem malformed_json_parse_error :
    (∀ e : String, tocInit (.error e)
        = .error (.bookGenerationError ("Invalid TOC format: " ++ e) (some "TOC_PARSE_ERROR")))
    ∧ tocInit (.ok (.dict [])) = .ok []
    ∧ tocInit (.ok (.int 5)) = .error .typeError :=
  ⟨fun e => rfl, rfl, rfl⟩

/-- C5 counterexample: the empty JSON object is valid JSON whose top level is
not an array, yet constructing a TableOfContents from it succeeds (with zero
chapters) instead of failing with TocParseError. -/
theorem nonarray_top_level_constructs : tocInit (.ok (.dict [])) = .ok [] := rfl

/-- C6: a JSON-malformed edited form makes update_from_json raise
BookGenerationError with code TOC_UPDATE_ERROR, and the previous chapter
sequence is left entirely unchanged (the exception is raised by json.loads
before self.chapters is reassigned). -/
theorem update_malformed_all_or_nothing (chapters : List Chapter) (e : String) :
    updateFromJson chapters (.error e)
        = .error (.bookGenerationError ("Invalid TOC JSON format: " ++ e) (some "TOC_UPDATE_ERROR"))
    ∧ tocAfterUpdate chapters (.error e) = chapters :=
  ⟨rfl, rfl⟩

/-- Decoding the encoding of one chapter gives the chapter back, provided its
title is not blank (a blank title would be rewritten by __post_init__; titles
of chapters held by a TableOfContents are never blank). -/
theorem updateChapterObj_encoded (c : Chapter) (h : ¬ pyStrip c.title = "") :
    updateChapterObj
        (.dict [("title", .str c.title),
                ("subchapters", .list (c.subchapters.map PyVal.str)),
                ("number", .int c.number)])
      = .ok c := by
  have h1 : updateChapterObj
        (.dict [("title", .str c.title),
                ("subchapters", .list (c.subchapters.map PyVal.str)),
                ("number", .int c.number)])
      = mkChapter (.str c.title) (.list (c.subchapters.map PyVal.str)) c.number := rfl
  rw [h1]
  have hall : (c.subchapters.map PyVal.str).all isStrVal = true := by
    simp [List.all_map, isStrVal, Function.comp]
  simp only [mkChapter, if_neg h, hall, if_true, List.map_map]
  have h2 : (strValOrEmpty ∘ PyVal.str) = fun s => s := rfl
  rw [h2, List.map_id']

/-- Decoding the elementwise encoding of a chapter list gives the chapter list
back when no title is blank. -/
theorem mapExcept_encoded (chapters : List Chapter)
    (h : ∀ c ∈ chapters, ¬ pyStrip c.title = "") :
    mapExcept updateChapterObj (chapters.map (fun c =>
        PyVal.dict [("title", .str c.title),
                    ("subchapters", .list (c.subchapters.map PyVal.str)),
                    ("number", .int c.number)]))
      = .ok chapters := by
  induction chapters with
  | nil => rfl
  | cons c rest ih =>
    rw [List.map_cons, mapExcept_cons,
      updateChapterObj_encoded c (h c (List.mem_cons_self c rest)), exceptOkBind,
      ih (fun d hd => h d (List.mem_cons_of_mem c hd)), exceptOkBind]

/-- C10: serialize-then-reload is the identity on the chapter sequence, for
every TableOfContents whose chapter titles are non-blank (which is every
reachable one: __post_init__ replaces blank titles with placeholders in both
the parse and the update path). -/
theorem serialize_reload_identity (chapters : List Chapter)
    (h : ∀ c ∈ chapters, ¬ pyStrip c.title = "") :
    updateFromJson chapters (.ok (tocToJson chapters)) = .ok chapters := by
  have h1 : updateFromJson chapters (.ok (tocToJson chapters))
      = mapExcept updateChapterObj (chapters.map (fun c =>
          PyVal.dict [("title", .str c.title),
                      ("subchapters", .list (c.subchapters.map PyVal.str)),
                      ("number", .int c.number)])) := rfl
  rw [h1]
  exact mapExcept_encoded chapters h

/-- Witness for C10 at a concrete two-chapter TableOfContents. -/
theorem serialize_reload_identity_witness :
    updateFromJson
        [{ title := "A", subchapters := ["S1", "S2"], number := 1 },
         { title := "B", subchapters := [], number := 2 }]
        (.ok (tocToJson
          [{ title := "A", subchapters := ["S1", "S2"], number := 1 },
           { title := "B", subchapters := [], number := 2 }]))
      = .ok
        [{ title := "A", subchapters := ["S1", "S2"], number := 1 },
         { title := "B", subchapters := [], number := 2 }] :=
  serialize_reload_identity _ (by decide)

/-- A JSON chapter object as the spec's "valid JSON array of chapter objects"
expects elementwise: an object whose title (if present) is a string and whose
subchapters (if present) is an array of strings; any other field, including a
number field with an arbitrary value, is allowed and ignored by parse. -/
def wfChapterObj : PyVal → Bool
  | .dict fields =>
      isStrVal ((fields.lookup "title").getD (.str ""))
        && (match (fields.lookup "subchapters").getD (.list []) with
            | .list xs => xs.all isStrVal
            | _ => false)
  | _ => false

/-- The subchapter list extracted from a subchapters value that is a JSON
array of strings. -/
def subsOf : PyVal → List String
  | .list xs => xs.map strValOrEmpty
  | _ => []

/-- The chapter that _parse_toc builds from a well-formed chapter object
(before numbering: number is the dataclass default 0, and a blank title
becomes "Untitled Chapter"). -/
def chapterOfObj : PyVal → Chapter
  | .dict fields =>
      let t := strValOrEmpty ((fields.lookup "title").getD (.str ""))
      { title := if pyStrip t = "" then "Untitled Chapter" else t
        subchapters := subsOf ((fields.lookup "subchapters").getD (.list []))
        number := 0 }
  | _ => { title := "", subchapters := [], number := 0 }

/-- Chapter construction at number 0 on a string title and a string-array
subchapters value succeeds, giving the Untitled placeholder on a blank
title. -/
theorem mkChapter_wf (tval sval : PyVal) (h1 : isStrVal tval = true)
    (h2 : (match sval with | .list xs => xs.all isStrVal | _ => false) = true) :
    mkChapter tval sval 0
      = .ok { title := if pyStrip (strValOrEmpty tval) = "" then "Untitled Chapter"
                       else strValOrEmpty tval
              subchapters := subsOf sval
              number := 0 } := by
  cases tval with
  | str t =>
      cases sval with
      | list xs =>
          have h2x : xs.all isStrVal = true := h2
          simp only [mkChapter, strValOrEmpty, subsOf, h2x, if_true]
          rw [if_neg (lt_irrefl (0 : Int))]
      | str s => exact absurd h2 (by simp)
      | int n => exact absurd h2 (by simp)
      | bool b => exact absurd h2 (by simp)
      | null => exact absurd h2 (by simp)
      | dict fs => exact absurd h2 (by simp)
  | int n => exact absurd h1 (by simp [isStrVal])
  | bool b => exact absurd h1 (by simp [isStrVal])
  | null => exact absurd h1 (by simp [isStrVal])
  | list xs => exact absurd h1 (by simp [isStrVal])
  | dict fs => exact absurd h1 (by simp [isStrVal])

/-- On a well-formed chapter object the comprehension body succeeds and builds
chapterOfObj. -/
theorem parseChapterObj_wf (v : PyVal) (h : wfChapterObj v = true) :
    parseChapterObj v = .ok (chapterOfObj v) := by
  cases v with
  | dict fields =>
      have hsplit := (Bool.and_eq_true _ _).mp h
      exact mkChapter_wf ((fields.lookup "title").getD (.str ""))
        ((fields.lookup "subchapters").getD (.list [])) hsplit.1 hsplit.2
  | str s => simp [wfChapterObj] at h
  | int n => simp [wfChapterObj] at h
  | bool b => simp [wfChapterObj] at h
  | null => simp [wfChapterObj] at h
  | list xs => simp [wfChapterObj] at h

/-- The comprehension succeeds on a list of well-formed chapter objects. -/
theorem mapExcept_parse_wf (items : List PyVal) (h : items.all wfChapterObj = true) :
    mapExcept parseChapterObj items = .ok (items.map chapterOfObj) := by
  induction items with
  | nil => rfl
  | cons v rest ih =>
      rw [List.all_cons, Bool.and_eq_true] at h
      rw [List.map_cons, mapExcept_cons, parseChapterObj_wf v h.1, exceptOkBind,
        ih h.2, exceptOkBind]

/-- C3: parsing a valid JSON array of chapter objects always succeeds and
renumbers the chapters 1..N by sequence position, regardless of any number
field present in the input objects (parse never reads one), so the markdown
chapter anchors — chapterAnchor applied to each chapter's number, which is
exactly what to_markdown interpolates into each chapter line — are
chapter-1 .. chapter-N in array order. -/
theorem parse_renumbers_anchors (items : List PyVal) (h : items.all wfChapterObj = true) :
    ∃ cs : List Chapter,
      tocInit (.ok (.list items)) = .ok cs
      ∧ cs.length = items.length
      ∧ cs.map Chapter.number = (List.range items.length).map (fun (i : Nat) => (i : Int) + 1)
      ∧ cs.map (fun c => chapterAnchor c.number)
          = (List.range items.length).map (fun (i : Nat) => chapterAnchor ((i : Int) + 1)) := by
  refine ⟨assignNumbers (items.map chapterOfObj), ?_, ?_, ?_, ?_⟩
  · have h1 : tocInit (.ok (.list items))
        = (mapExcept parseChapterObj items).map assignNumbers := rfl
    rw [h1, mapExcept_parse_wf items h]
    rfl
  · rw [assignNumbers, assignNumbersFrom_length, List.length_map]
  · rw [assignNumbers, assignNumbersFrom_map_number, List.length_map]
    apply List.map_congr_left
    intro i _
    ring
  · have hmm : (assignNumbers (items.map chapterOfObj)).map (fun c => chapterAnchor c.number)
        = ((assignNumbers (items.map chapterOfObj)).map Chapter.number).map chapterAnchor := by
      rw [List.map_map]; rfl
    rw [hmm, assignNumbers, assignNumbersFrom_map_number, List.length_map, List.map_map]
    apply List.map_congr_left
    intro i _
    simp only [Function.comp_apply]
    rw [add_comm]

/-- Witness for C3 at a concrete one-object array carrying a number field
(which parse ignores: the chapter is numbered by position, not by the field). -/
theorem parse_renumbers_anchors_witness :
    [PyVal.dict [("title", PyVal.str "Ch1"),
                 ("subchapters", PyVal.list [PyVal.str "S1"]),
                 ("number", PyVal.int 7)]].all wfChapterObj = true
    ∧ ∃ cs : List Chapter,
        tocInit (.ok (.list [PyVal.dict [("title", PyVal.str "Ch1"),
                 ("subchapters", PyVal.list [PyVal.str "S1"]),
                 ("number", PyVal.int 7)]])) = .ok cs
        ∧ cs.length = 1
        ∧ cs.map Chapter.number = (List.range 1).map (fun (i : Nat) => (i : Int) + 1)
        ∧ cs.map (fun c => chapterAnchor c.number)
            = (List.range 1).map (fun (i : Nat) => chapterAnchor ((i : Int) + 1)) :=
  ⟨rfl, by
    have hlen : ([PyVal.dict [("title", PyVal.str "Ch1"),
                 ("subchapters", PyVal.list [PyVal.str "S1"]),
                 ("number", PyVal.int 7)]] : List PyVal).length = 1 := rfl
    have := parse_renumbers_anchors
      [PyVal.dict [("title", PyVal.str "Ch1"),
                   ("subchapters", PyVal.list [PyVal.str "S1"]),
                   ("number", PyVal.int 7)]] rfl
    rwa [hlen] at this⟩

/-- The three-backtick fence delimiter. -/
def fenceChars : List Char := "```".toList

/-- Models the opening part of the _clean_response regex (line 55),
regex ^\s* followed by the optional group (?:```(?:json|python)?\s*)? .
Since the trailing part of the pattern can always complete, the greedy
opening is never backtracked: maximal whitespace, then a literal fence if
present, then a case-insensitive language token if present, then maximal
whitespace. Leading ^\s* is applied by cleanResponse before this. -/
def dropOpeningFence (cs : List Char) : List Char :=
  if cs.take 3 = fenceChars then
    if ((cs.drop 3).take 4).map Char.toLower = "json".toList then
      ((cs.drop 3).drop 4).dropWhile isPySpace
    else if ((cs.drop 3).take 6).map Char.toLower = "python".toList then
      ((cs.drop 3).drop 6).dropWhile isPySpace
    else (cs.drop 3).dropWhile isPySpace
  else cs

/-- Whether a tail of the input matches the closing-fence part of the
_clean_response regex, the fragment \s*```\s*$ under DOTALL: optional
whitespace, a literal fence, then whitespace running to the end of the
input ($ also matching just before a final newline, itself whitespace). -/
def endFenceMatches (tail : List Char) : Bool :=
  ((tail.dropWhile isPySpace).take 3 = fenceChars)
    && ((tail.dropWhile isPySpace).drop 3).all isPySpace

/-- Whether $ matches directly at this tail with the optional closing group
skipped: only at the very end, or just before a single final newline. -/
def dollarOnly (tail : List Char) : Bool := tail.isEmpty || tail = ['\n']

/-- Models the lazy capture group (.*?) of the _clean_response regex followed
by (?:\s*```\s*)?$ : the shortest prefix such that the remaining tail matches
the closing fence (tried first at each position) or bare $ . -/
def group1 : List Char → List Char
  | [] => []
  | c :: rest =>
      if endFenceMatches (c :: rest) || dollarOnly (c :: rest) then []
      else c :: group1 rest

/-- Models TableOfContents._clean_response (lines 48-61): the regex match of
^\s*(?:```(?:json|python)?\s*)?(.*?)(?:\s*```\s*)?$ with DOTALL and
IGNORECASE always succeeds, and its captured group is returned stripped. -/
def cleanResponse (cs : List Char) : List Char :=
  pyStripChars (group1 (dropOpeningFence (cs.dropWhile isPySpace)))

/-- Payload wrapped in a json-tagged fence. -/
def wrapJsonFence (t : List Char) : List Char :=
  "```json\n".toList ++ t ++ "\n```".toList

/-- Payload wrapped in a python-tagged fence. -/
def wrapPythonFence (t : List Char) : List Char :=
  "```python\n".toList ++ t ++ "\n```".toList

/-- Payload wrapped in a bare fence. -/
def wrapBareFence (t : List Char) : List Char :=
  "```\n".toList ++ t ++ "\n```".toList

/-- C8 counterexample: the payload a``` (which the json-fence wrapping
preserves) is changed by a bare application of the stripping operation, so
stripping is neither format-tolerant nor idempotent: the fenced and unfenced
wrappings of the same payload disagree, and re-stripping an already-stripped
result changes it again. -/
theorem fence_strip_counterexample :
    cleanResponse (wrapJsonFence ("a```".toList)) = "a```".toList
    ∧ cleanResponse ("a```".toList) = "a".toList
    ∧ cleanResponse (cleanResponse (wrapJsonFence ("a```".toList)))
        ≠ cleanResponse (wrapJsonFence ("a```".toList)) := by
  refine ⟨by decide, by decide, ?_⟩
  decide

/-- A both-ends-stripped list has no leading whitespace. -/
theorem trimmed_dropWhile (t : List Char) (h : pyStripChars t = t) :
    t.dropWhile isPySpace = t := by
  have hsuff : t.dropWhile isPySpace <:+ t := List.dropWhile_suffix _
  apply hsuff.eq_of_length
  have h1 := congrArg List.length h
  unfold pyStripChars at h1
  simp only [List.length_reverse] at h1
  have h2 : ((t.dropWhile isPySpace).reverse.dropWhile isPySpace).length
      ≤ (t.dropWhile isPySpace).reverse.length :=
    (List.dropWhile_suffix _).length_le
  simp only [List.length_reverse] at h2
  have h3 : (t.dropWhile isPySpace).length ≤ t.length := hsuff.length_le
  omega

/-- A both-ends-stripped list has no trailing whitespace. -/
theorem trimmed_rev_dropWhile (t : List Char) (h : pyStripChars t = t) :
    t.reverse.dropWhile isPySpace = t.reverse := by
  have h1 := h
  unfold pyStripChars at h1
  rw [trimmed_dropWhile t h] at h1
  have := congrArg List.reverse h1
  simpa using this

/-- A nonempty both-ends-stripped list ends in a non-whitespace character. -/
theorem trimmed_getLast (t : List Char) (h : pyStripChars t = t) (hne : t ≠ []) :
    ∃ d, t.getLast? = some d ∧ isPySpace d = false := by
  cases hrev : t.reverse with
  | nil =>
      exact absurd (by simpa using congrArg List.reverse hrev) hne
  | cons c v =>
      have h2 := trimmed_rev_dropWhile t h
      rw [hrev] at h2
      by_cases hc : isPySpace c = true
      · rw [List.dropWhile_cons, if_pos hc] at h2
        have := congrArg List.length h2
        have hle : (v.dropWhile isPySpace).length ≤ v.length :=
          (List.dropWhile_suffix _).length_le
        simp at this
        omega
      · refine ⟨c, ?_, by simpa using hc⟩
        rw [List.getLast?_eq_head?_reverse, hrev]
        rfl

/-- A nonempty suffix ends where the whole list ends. -/
theorem suffix_getLast (t u : List Char) (hu : u <:+ t) (hne : u ≠ []) :
    u.getLast? = t.getLast? := by
  obtain ⟨pre, rfl⟩ := hu
  rw [List.getLast?_append]
  cases hgl : u.getLast? with
  | none => exact absurd (List.getLast?_eq_none_iff.mp hgl) hne
  | some d => rfl

/-- The lazy group scans through a prefix on which no stopping position
exists, whatever comes after it. -/
theorem group1_append (t s : List Char)
    (hno : ∀ u, u <:+ t → u ≠ [] →
      (endFenceMatches (u ++ s) || dollarOnly (u ++ s)) = false) :
    group1 (t ++ s) = t ++ group1 s := by
  induction t with
  | nil => rfl
  | cons c t' ih =>
      have hc := hno (c :: t') (List.suffix_refl _) (List.cons_ne_nil c t')
      have hstep : group1 ((c :: t') ++ s)
          = if endFenceMatches ((c :: t') ++ s) || dollarOnly ((c :: t') ++ s) then []
            else c :: group1 (t' ++ s) := rfl
      rw [hstep, if_neg (by rw [hc]; exact Bool.false_ne_true)]
      rw [ih (fun u hu hune => hno u (hu.trans (List.suffix_cons c t')) hune)]
      rfl

/-- The lazy group only ever keeps characters of its input. -/
theorem group1_all (l : List Char) (p : Char → Bool) (h : l.all p = true) :
    (group1 l).all p = true := by
  induction l with
  | nil => rfl
  | cons c rest ih =>
      rw [List.all_cons, Bool.and_eq_true] at h
      have hstep : group1 (c :: rest)
          = if endFenceMatches (c :: rest) || dollarOnly (c :: rest) then []
            else c :: group1 rest := rfl
      rw [hstep]
      by_cases hcond : (endFenceMatches (c :: rest) || dollarOnly (c :: rest)) = true
      · rw [if_pos hcond]; rfl
      · rw [if_neg hcond, List.all_cons, h.1, ih h.2]; rfl

/-- Stripping after appending pure whitespace to a stripped list gives the
list back. -/
theorem pyStrip_append_ws (t w : List Char) (ht : pyStripChars t = t)
    (hw : w.all isPySpace = true) : pyStripChars (t ++ w) = t := by
  cases hte : t with
  | nil =>
      simp only [List.nil_append]
      unfold pyStripChars
      have hdw : w.dropWhile isPySpace = [] :=
        List.dropWhile_eq_nil_iff.mpr (fun x hx => List.all_eq_true.mp hw x hx)
      rw [hdw]
      rfl
  | cons c t' =>
      rw [← hte]
      have htne : t ≠ [] := by rw [hte]; exact List.cons_ne_nil c t'
      unfold pyStripChars
      rw [List.dropWhile_append,
        if_neg (by rw [trimmed_dropWhile t ht]; simpa using htne),
        trimmed_dropWhile t ht, List.reverse_append,
        List.dropWhile_append_of_pos
          (fun a ha => List.all_eq_true.mp hw a (by simpa using ha)),
        trimmed_rev_dropWhile t ht, List.reverse_reverse]

/-- Dropping leading whitespace from a list ending in a non-whitespace
character leaves a nonempty list with the same last element. -/
theorem dropWhile_decomp (u : List Char) (d : Char) (hlast : u.getLast? = some d)
    (hd : isPySpace d = false) :
    u.dropWhile isPySpace ≠ [] ∧ (u.dropWhile isPySpace).getLast? = some d := by
  have hdmem : d ∈ u := List.mem_of_getLast?_eq_some hlast
  have hne : u.dropWhile isPySpace ≠ [] := by
    intro hnil
    have hall := List.dropWhile_eq_nil_iff.mp hnil
    have h1 := hall d hdmem
    rw [hd] at h1
    exact Bool.false_ne_true h1
  refine ⟨hne, ?_⟩
  have hsplit : u.takeWhile isPySpace ++ u.dropWhile isPySpace = u := by simp
  have h2 : u.getLast? = (u.dropWhile isPySpace).getLast?.or (u.takeWhile isPySpace).getLast? := by
    conv_lhs => rw [← hsplit]
    exact List.getLast?_append
  cases hwl : (u.dropWhile isPySpace).getLast? with
  | none => exact absurd (List.getLast?_eq_none_iff.mp hwl) hne
  | some x =>
      rw [h2, hwl] at hlast
      exact hlast

/-- The closing-fence pattern cannot match with a 4-character tail
newline-fence still to the right: the first fence candidate met is too early
(the tail's own backticks make the trailing whitespace requirement fail). -/
theorem endFence_false_close (w : List Char) :
    (((w ++ '\n' :: fenceChars).take 3 = fenceChars)
      && ((w ++ '\n' :: fenceChars).drop 3).all isPySpace) = false := by
  rcases w with _ | ⟨a, _ | ⟨b, _ | ⟨c, w2⟩⟩⟩
  · have htake : (([] : List Char) ++ '\n' :: fenceChars).take 3
        = '\n' :: fenceChars.take 2 := by simp
    rw [htake]
    have hne : ('\n' :: fenceChars.take 2) ≠ fenceChars := by
      intro heq
      have hmem : '\n' ∈ fenceChars := by
        rw [← heq]; exact List.mem_cons_self _ _
      exact absurd hmem (by decide)
    rw [decide_eq_false hne, Bool.false_and]
  · have htake : ((a :: ([] : List Char)) ++ '\n' :: fenceChars).take 3
        = a :: '\n' :: fenceChars.take 1 := by simp
    rw [htake]
    have hne : (a :: '\n' :: fenceChars.take 1) ≠ fenceChars := by
      intro heq
      have hmem : '\n' ∈ fenceChars := by
        rw [← heq]; exact List.mem_cons_of_mem a (List.mem_cons_self _ _)
      exact absurd hmem (by decide)
    rw [decide_eq_false hne, Bool.false_and]
  · have htake : ((a :: b :: ([] : List Char)) ++ '\n' :: fenceChars).take 3
        = a :: b :: ['\n'] := by simp
    rw [htake]
    have hne : (a :: b :: ['\n']) ≠ fenceChars := by
      intro heq
      have hmem : '\n' ∈ fenceChars := by
        rw [← heq]
        exact List.mem_cons_of_mem a (List.mem_cons_of_mem b (List.mem_cons_self _ _))
      exact absurd hmem (by decide)
    rw [decide_eq_false hne, Bool.false_and]
  · have hdrop : ((a :: b :: c :: w2) ++ '\n' :: fenceChars).drop 3
        = w2 ++ '\n' :: fenceChars := by simp
    rw [hdrop, List.all_append]
    have hf : ('\n' :: fenceChars).all isPySpace = false := by decide
    rw [hf, Bool.and_false, Bool.and_false]

/-- The closing-fence pattern cannot match a tail made of part of the payload
followed by pure whitespace, when the payload part ends in a non-whitespace
character and is not itself a bare fence. -/
theorem endFence_false_ws (w w2 : List Char) (d : Char) (hwlast : w.getLast? = some d)
    (hd : isPySpace d = false) (hw2 : w2.all isPySpace = true)
    (hnf : w ≠ fenceChars) :
    (((w ++ w2).take 3 = fenceChars) && ((w ++ w2).drop 3).all isPySpace) = false := by
  rcases w with _ | ⟨a, _ | ⟨b, _ | ⟨c, w3⟩⟩⟩
  · simp at hwlast
  · have htake : ((a :: ([] : List Char)) ++ w2).take 3 = a :: w2.take 2 := by
      simp
    rw [htake]
    have hne : (a :: w2.take 2) ≠ fenceChars := by
      intro heq
      have htl : w2.take 2 = fenceChars.tail := by
        simpa using congrArg List.tail heq
      obtain ⟨y, hy⟩ :=
        List.exists_mem_of_ne_nil _ (by decide : (fenceChars.tail : List Char) ≠ [])
      have hyw2 : y ∈ w2 := List.mem_of_mem_take (htl ▸ hy)
      have h1 := List.all_eq_true.mp hw2 y hyw2
      have h2 : ∀ x ∈ (fenceChars.tail : List Char), isPySpace x = false := by decide
      rw [h2 y hy] at h1
      exact Bool.false_ne_true h1
    rw [decide_eq_false hne, Bool.false_and]
  · have htake : ((a :: b :: ([] : List Char)) ++ w2).take 3 = a :: b :: w2.take 1 := by
      simp
    rw [htake]
    have hne : (a :: b :: w2.take 1) ≠ fenceChars := by
      intro heq
      have htl : w2.take 1 = fenceChars.tail.tail := by
        have h1 := congrArg List.tail (congrArg List.tail heq)
        simpa using h1
      obtain ⟨y, hy⟩ :=
        List.exists_mem_of_ne_nil _ (by decide : (fenceChars.tail.tail : List Char) ≠ [])
      have hyw2 : y ∈ w2 := List.mem_of_mem_take (htl ▸ hy)
      have h1 := List.all_eq_true.mp hw2 y hyw2
      have h2 : ∀ x ∈ (fenceChars.tail.tail : List Char), isPySpace x = false := by decide
      rw [h2 y hy] at h1
      exact Bool.false_ne_true h1
    rw [decide_eq_false hne, Bool.false_and]
  · by_cases h1 : ([a, b, c] : List Char) = fenceChars
    · have hdrop : ((a :: b :: c :: w3) ++ w2).drop 3 = w3 ++ w2 := by simp
      rcases eq_or_ne w3 ([] : List Char) with hx | hx
      · subst hx
        exact absurd h1 hnf
      · have hgl : (a :: b :: c :: w3).getLast? = w3.getLast? := by
          have hsh : a :: b :: c :: w3 = [a, b, c] ++ w3 := rfl
          rw [hsh, List.getLast?_append]
          cases hwl3 : w3.getLast? with
          | none => exact absurd (List.getLast?_eq_none_iff.mp hwl3) hx
          | some z => rfl
        rw [hgl] at hwlast
        have hdw3 : d ∈ w3 := List.mem_of_getLast?_eq_some hwlast
        have hallf : (w3 ++ w2).all isPySpace = false := by
          rcases Bool.eq_false_or_eq_true ((w3 ++ w2).all isPySpace) with hv | hv
          · have h3 := List.all_eq_true.mp hv d (List.mem_append_left _ hdw3)
            rw [hd] at h3
            exact absurd h3 (by decide)
          · exact hv
        rw [hdrop, hallf, Bool.and_false]
    · have htake : ((a :: b :: c :: w3) ++ w2).take 3 = [a, b, c] := by simp
      rw [htake, decide_eq_false h1, Bool.false_and]

/-- No stopping position of the lazy group exists while scanning the payload
of a fenced input: the tail is part of the payload plus the closing fence. -/
theorem stop_false_before_close (u : List Char) (d : Char)
    (hlast : u.getLast? = some d) (hd : isPySpace d = false) :
    (endFenceMatches (u ++ '\n' :: fenceChars)
      || dollarOnly (u ++ '\n' :: fenceChars)) = false := by
  have hune : u ≠ [] := by
    intro h; rw [h] at hlast; simp at hlast
  obtain ⟨hwne, hwlast⟩ := dropWhile_decomp u d hlast hd
  have hdw : (u ++ '\n' :: fenceChars).dropWhile isPySpace
      = u.dropWhile isPySpace ++ '\n' :: fenceChars := by
    rw [List.dropWhile_append, if_neg (by simp [hwne])]
  have hfence : endFenceMatches (u ++ '\n' :: fenceChars) = false := by
    unfold endFenceMatches
    rw [hdw]
    exact endFence_false_close (u.dropWhile isPySpace)
  have hdollar : dollarOnly (u ++ '\n' :: fenceChars) = false := by
    unfold dollarOnly
    have h1 : (u ++ '\n' :: fenceChars).isEmpty = false := by simp
    have h2 : ¬(u ++ '\n' :: fenceChars = ['\n']) := by
      intro heq
      have hl := congrArg List.length heq
      rw [List.length_append] at hl
      have h4 : ('\n' :: fenceChars).length = 4 := by decide
      rw [h4] at hl
      simp at hl
    rw [h1, decide_eq_false h2]
    rfl
  rw [hfence, hdollar]
  rfl

/-- No stopping position of the lazy group exists while scanning a payload
followed by pure whitespace, when the payload neither ends in whitespace nor
ends in a fence. -/
theorem stop_false_before_ws (u w2 : List Char) (d : Char)
    (hlast : u.getLast? = some d) (hd : isPySpace d = false)
    (hw2 : w2.all isPySpace = true)
    (hnf : u.reverse.take 3 ≠ fenceChars) :
    (endFenceMatches (u ++ w2) || dollarOnly (u ++ w2)) = false := by
  have hune : u ≠ [] := by
    intro h; rw [h] at hlast; simp at hlast
  obtain ⟨hwne, hwlast⟩ := dropWhile_decomp u d hlast hd
  have hwnf : u.dropWhile isPySpace ≠ fenceChars := by
    intro heq
    have hsplit : u.takeWhile isPySpace ++ u.dropWhile isPySpace = u := by simp
    have hu : u = u.takeWhile isPySpace ++ fenceChars := by rw [← heq, hsplit]
    have hrev : u.reverse = fenceChars.reverse ++ (u.takeWhile isPySpace).reverse := by
      have h5 := congrArg List.reverse hu
      rw [List.reverse_append] at h5
      exact h5
    have hfr : (fenceChars.reverse : List Char) = fenceChars := by decide
    have hcon : u.reverse.take 3 = fenceChars := by
      rw [hrev, hfr, List.take_append_of_le_length (by decide)]
      decide
    exact absurd hcon hnf
  have hdw : (u ++ w2).dropWhile isPySpace = u.dropWhile isPySpace ++ w2 := by
    rw [List.dropWhile_append, if_neg (by simp [hwne])]
  have hfence : endFenceMatches (u ++ w2) = false := by
    unfold endFenceMatches
    rw [hdw]
    exact endFence_false_ws _ w2 d hwlast hd hw2 hwnf
  have hdollar : dollarOnly (u ++ w2) = false := by
    unfold dollarOnly
    have h1 : (u ++ w2).isEmpty = false := by simp [hune]
    have h2 : ¬(u ++ w2 = ['\n']) := by
      intro heq
      have hl := congrArg List.length heq
      rw [List.length_append] at hl
      simp at hl
      have hupos : 1 ≤ u.length := List.length_pos.mpr hune
      have hul : u.length = 1 := by omega
      have hw2l : w2.length = 0 := by omega
      have hw2e : w2 = [] := List.length_eq_zero.mp hw2l
      obtain ⟨x, hx⟩ := List.length_eq_one.mp hul
      rw [hx, hw2e] at heq
      simp at heq
      rw [hx] at hlast
      simp at hlast
      rw [heq] at hlast
      rw [← hlast] at hd
      exact absurd hd (by decide)
    rw [h1, decide_eq_false h2]
    rfl
  rw [hfence, hdollar]
  rfl

/-- For a stripped payload, no stopping position exists before the closing
fence of a wrapped input. -/
theorem hno_of_trimmed_close (t : List Char) (htrim : pyStripChars t = t) (hne : t ≠ []) :
    ∀ u, u <:+ t → u ≠ [] →
      (endFenceMatches (u ++ '\n' :: fenceChars)
        || dollarOnly (u ++ '\n' :: fenceChars)) = false := by
  obtain ⟨d, hd1, hd2⟩ := trimmed_getLast t htrim hne
  intro u hu hune
  exact stop_false_before_close u d (by rw [suffix_getLast t u hu hune]; exact hd1) hd2

/-- For a stripped payload not ending in a fence, no stopping position exists
before its trailing whitespace. -/
theorem hno_of_trimmed_ws (t w2 : List Char) (htrim : pyStripChars t = t) (hne : t ≠ [])
    (hw2 : w2.all isPySpace = true) (hnf : t.reverse.take 3 ≠ fenceChars) :
    ∀ u, u <:+ t → u ≠ [] →
      (endFenceMatches (u ++ w2) || dollarOnly (u ++ w2)) = false := by
  obtain ⟨d, hd1, hd2⟩ := trimmed_getLast t htrim hne
  intro u hu hune
  apply stop_false_before_ws u w2 d (by rw [suffix_getLast t u hu hune]; exact hd1) hd2 hw2
  intro heq
  have hpref : u.reverse <+: t.reverse := List.reverse_prefix.mpr hu
  have hlen : 3 ≤ u.reverse.length := by
    have h1 := congrArg List.length heq
    rw [List.length_take] at h1
    have hf3 : (fenceChars : List Char).length = 3 := by decide
    rw [hf3] at h1
    omega
  obtain ⟨r, hr⟩ := hpref
  have hcon : t.reverse.take 3 = fenceChars := by
    rw [← hr, List.take_append_of_le_length hlen, heq]
  exact absurd hcon hnf

/-- Appending whitespace to a nonempty payload that does not open with a fence
cannot create one. -/
theorem take3_append_ws (t w2 : List Char) (hne : t ≠ [])
    (hopen : t.take 3 ≠ fenceChars) (hw2 : w2.all isPySpace = true) :
    (t ++ w2).take 3 ≠ fenceChars := by
  rcases t with _ | ⟨a, _ | ⟨b, _ | ⟨c, t3⟩⟩⟩
  · exact absurd rfl hne
  · intro heq
    have htake : ((a :: ([] : List Char)) ++ w2).take 3 = a :: w2.take 2 := by simp
    rw [htake] at heq
    have htl : w2.take 2 = fenceChars.tail := by
      simpa using congrArg List.tail heq
    obtain ⟨y, hy⟩ :=
      List.exists_mem_of_ne_nil _ (by decide : (fenceChars.tail : List Char) ≠ [])
    have hyw2 : y ∈ w2 := List.mem_of_mem_take (htl ▸ hy)
    have h1 := List.all_eq_true.mp hw2 y hyw2
    have h2 : ∀ x ∈ (fenceChars.tail : List Char), isPySpace x = false := by decide
    rw [h2 y hy] at h1
    exact Bool.false_ne_true h1
  · intro heq
    have htake : ((a :: b :: ([] : List Char)) ++ w2).take 3 = a :: b :: w2.take 1 := by simp
    rw [htake] at heq
    have htl : w2.take 1 = fenceChars.tail.tail := by
      have h1 := congrArg List.tail (congrArg List.tail heq)
      simpa using h1
    obtain ⟨y, hy⟩ :=
      List.exists_mem_of_ne_nil _ (by decide : (fenceChars.tail.tail : List Char) ≠ [])
    have hyw2 : y ∈ w2 := List.mem_of_mem_take (htl ▸ hy)
    have h1 := List.all_eq_true.mp hw2 y hyw2
    have h2 : ∀ x ∈ (fenceChars.tail.tail : List Char), isPySpace x = false := by decide
    rw [h2 y hy] at h1
    exact Bool.false_ne_true h1
  · intro heq
    have htake : ((a :: b :: c :: t3) ++ w2).take 3 = [a, b, c] := by simp
    rw [htake] at heq
    have ht3 : (a :: b :: c :: t3).take 3 = [a, b, c] := by simp
    rw [ht3] at hopen
    exact absurd heq hopen

/-- Evaluating the opening step on a json-fenced input. -/
theorem dropOpening_json (x : List Char) :
    dropOpeningFence ("```json\n".toList ++ x) = x.dropWhile isPySpace := by
  unfold dropOpeningFence
  have h1 : ("```json\n".toList ++ x).take 3 = fenceChars := by
    rw [List.take_append_of_le_length (by decide)]
    decide
  have h2 : ("```json\n".toList ++ x).drop 3 = "json\n".toList ++ x := by
    rw [List.drop_append_of_le_length (by decide)]
    rfl
  rw [if_pos h1, h2]
  have h3 : (("json\n".toList ++ x).take 4).map Char.toLower = "json".toList := by
    rw [List.take_append_of_le_length (by decide)]
    decide
  have h4 : ("json\n".toList ++ x).drop 4 = '\n' :: x := by
    rw [List.drop_append_of_le_length (by decide)]
    rfl
  rw [if_pos h3, h4, List.dropWhile_cons, if_pos (by decide)]

/-- Evaluating the opening step on a python-fenced input. -/
theorem dropOpening_python (x : List Char) :
    dropOpeningFence ("```python\n".toList ++ x) = x.dropWhile isPySpace := by
  unfold dropOpeningFence
  have h1 : ("```python\n".toList ++ x).take 3 = fenceChars := by
    rw [List.take_append_of_le_length (by decide)]
    decide
  have h2 : ("```python\n".toList ++ x).drop 3 = "python\n".toList ++ x := by
    rw [List.drop_append_of_le_length (by decide)]
    rfl
  rw [if_pos h1, h2]
  have h3 : ¬((("python\n".toList ++ x).take 4).map Char.toLower = "json".toList) := by
    rw [List.take_append_of_le_length (by decide)]
    decide
  have h4 : (("python\n".toList ++ x).take 6).map Char.toLower = "python".toList := by
    rw [List.take_append_of_le_length (by decide)]
    decide
  have h5 : ("python\n".toList ++ x).drop 6 = '\n' :: x := by
    rw [List.drop_append_of_le_length (by decide)]
    rfl
  rw [if_neg h3, if_pos h4, h5, List.dropWhile_cons, if_pos (by decide)]

/-- Evaluating the opening step on a bare-fenced input whose payload cannot
start a language token (the separating newline blocks json and python). -/
theorem dropOpening_bare (x : List Char) :
    dropOpeningFence ("```\n".toList ++ x) = x.dropWhile isPySpace := by
  unfold dropOpeningFence
  have h1 : ("```\n".toList ++ x).take 3 = fenceChars := by
    rw [List.take_append_of_le_length (by decide)]
    decide
  have h2 : ("```\n".toList ++ x).drop 3 = '\n' :: x := by
    rw [List.drop_append_of_le_length (by decide)]
    rfl
  rw [if_pos h1, h2]
  have h3 : ¬((('\n' :: x).take 4).map Char.toLower = "json".toList) := by
    intro heq
    have h5 : (('\n' :: x).take 4).map Char.toLower
        = Char.toLower '\n' :: (x.take 3).map Char.toLower := by
      simp
    rw [h5] at heq
    have h6 := congrArg List.head? heq
    simp at h6
  have h4 : ¬((('\n' :: x).take 6).map Char.toLower = "python".toList) := by
    intro heq
    have h5 : (('\n' :: x).take 6).map Char.toLower
        = Char.toLower '\n' :: (x.take 5).map Char.toLower := by
      simp
    rw [h5] at heq
    have h6 := congrArg List.head? heq
    simp at h6
  rw [if_neg h3, if_neg h4, List.dropWhile_cons, if_pos (by decide)]

/-- Stripping a json-fenced stripped payload returns the payload. -/
theorem clean_wrapJson (t : List Char) (htrim : pyStripChars t = t) :
    cleanResponse (wrapJsonFence t) = t := by
  rcases eq_or_ne t ([] : List Char) with hne | hne
  · subst hne; decide
  · unfold cleanResponse wrapJsonFence
    rw [List.append_assoc]
    rw [List.dropWhile_append, if_neg (by decide),
      (by decide : ("```json\n".toList).dropWhile isPySpace = "```json\n".toList)]
    rw [dropOpening_json (t ++ "\n```".toList)]
    rw [List.dropWhile_append, if_neg (by rw [trimmed_dropWhile t htrim]; simp [hne]),
      trimmed_dropWhile t htrim]
    rw [group1_append t ("\n```".toList) (hno_of_trimmed_close t htrim hne)]
    rw [(by decide : group1 ("\n```".toList) = []), List.append_nil]
    exact htrim

/-- Stripping a python-fenced stripped payload returns the payload. -/
theorem clean_wrapPython (t : List Char) (htrim : pyStripChars t = t) :
    cleanResponse (wrapPythonFence t) = t := by
  rcases eq_or_ne t ([] : List Char) with hne | hne
  · subst hne; decide
  · unfold cleanResponse wrapPythonFence
    rw [List.append_assoc]
    rw [List.dropWhile_append, if_neg (by decide),
      (by decide : ("```python\n".toList).dropWhile isPySpace = "```python\n".toList)]
    rw [dropOpening_python (t ++ "\n```".toList)]
    rw [List.dropWhile_append, if_neg (by rw [trimmed_dropWhile t htrim]; simp [hne]),
      trimmed_dropWhile t htrim]
    rw [group1_append t ("\n```".toList) (hno_of_trimmed_close t htrim hne)]
    rw [(by decide : group1 ("\n```".toList) = []), List.append_nil]
    exact htrim

/-- Stripping a bare-fenced stripped payload returns the payload. -/
theorem clean_wrapBare (t : List Char) (htrim : pyStripChars t = t) :
    cleanResponse (wrapBareFence t) = t := by
  rcases eq_or_ne t ([] : List Char) with hne | hne
  · subst hne; decide
  · unfold cleanResponse wrapBareFence
    rw [List.append_assoc]
    rw [List.dropWhile_append, if_neg (by decide),
      (by decide : ("```\n".toList).dropWhile isPySpace = "```\n".toList)]
    rw [dropOpening_bare (t ++ "\n```".toList)]
    rw [List.dropWhile_append, if_neg (by rw [trimmed_dropWhile t htrim]; simp [hne]),
      trimmed_dropWhile t htrim]
    rw [group1_append t ("\n```".toList) (hno_of_trimmed_close t htrim hne)]
    rw [(by decide : group1 ("\n```".toList) = []), List.append_nil]
    exact htrim

/-- Stripping a stripped payload surrounded by whitespace only, with no fence
at either end of the payload, returns the payload. -/
theorem clean_nofence (t w1 w2 : List Char) (htrim : pyStripChars t = t)
    (hopen : t.take 3 ≠ fenceChars) (hclose : t.reverse.take 3 ≠ fenceChars)
    (hw1 : w1.all isPySpace = true) (hw2 : w2.all isPySpace = true) :
    cleanResponse (w1 ++ t ++ w2) = t := by
  rcases eq_or_ne t ([] : List Char) with hne | hne
  · subst hne
    unfold cleanResponse
    have hall : (w1 ++ ([] : List Char) ++ w2).all isPySpace = true := by
      simp only [List.append_nil, List.all_append]
      rw [hw1, hw2]
      rfl
    rw [List.dropWhile_eq_nil_iff.mpr (fun x hx => List.all_eq_true.mp hall x hx)]
    rfl
  · unfold cleanResponse
    rw [List.append_assoc]
    rw [List.dropWhile_append_of_pos (fun a ha => List.all_eq_true.mp hw1 a ha)]
    rw [List.dropWhile_append, if_neg (by rw [trimmed_dropWhile t htrim]; simp [hne]),
      trimmed_dropWhile t htrim]
    have hover : dropOpeningFence (t ++ w2) = t ++ w2 := by
      unfold dropOpeningFence
      rw [if_neg (take3_append_ws t w2 hne hopen hw2)]
    rw [hover]
    rw [group1_append t w2 (hno_of_trimmed_ws t w2 htrim hne hw2 hclose)]
    exact pyStrip_append_ws t (group1 w2) htrim (group1_all w2 _ hw2)

/-- C8 (amended): for every stripped payload that neither starts nor ends with
a three-backtick fence, wrapping in a json fence, a python fence, a bare
fence, or no fence at all with any surrounding whitespace all yield exactly
that payload, and re-stripping such a stripped payload returns it unchanged.
(Without the no-fence-at-the-edges condition the claim fails, see the
counterexample: a payload ending in three backticks survives fenced wrapping
but loses its trailing fence in the unfenced form, so stripping is neither
format-tolerant nor idempotent on such payloads.) -/
theorem fence_strip_tolerant (t : List Char)
    (htrim : pyStripChars t = t)
    (hopen : t.take 3 ≠ fenceChars)
    (hclose : t.reverse.take 3 ≠ fenceChars) :
    cleanResponse (wrapJsonFence t) = t
    ∧ cleanResponse (wrapPythonFence t) = t
    ∧ cleanResponse (wrapBareFence t) = t
    ∧ cleanResponse t = t
    ∧ (∀ w1 w2 : List Char, w1.all isPySpace = true → w2.all isPySpace = true →
        cleanResponse (w1 ++ t ++ w2) = t)
    ∧ cleanResponse (cleanResponse (wrapJsonFence t)) = cleanResponse (wrapJsonFence t) := by
  have hplain : cleanResponse t = t := by
    have h1 := clean_nofence t [] [] htrim hopen hclose rfl rfl
    simpa using h1
  refine ⟨clean_wrapJson t htrim, clean_wrapPython t htrim, clean_wrapBare t htrim,
    hplain, fun w1 w2 h1 h2 => clean_nofence t w1 w2 htrim hopen hclose h1 h2, ?_⟩
  rw [clean_wrapJson t htrim, hplain]

/-- Witness for the amended C8 theorem at a concrete payload. -/
theorem fence_strip_tolerant_witness :
    cleanResponse (wrapJsonFence ("payload 1".toList)) = "payload 1".toList
    ∧ cleanResponse (wrapPythonFence ("payload 1".toList)) = "payload 1".toList
    ∧ cleanResponse (wrapBareFence ("payload 1".toList)) = "payload 1".toList
    ∧ cleanResponse ("payload 1".toList) = "payload 1".toList
    ∧ (∀ w1 w2 : List Char, w1.all isPySpace = true → w2.all isPySpace = true →
        cleanResponse (w1 ++ "payload 1".toList ++ w2) = "payload 1".toList)
    ∧ cleanResponse (cleanResponse (wrapJsonFence ("payload 1".toList)))
        = cleanResponse (wrapJsonFence ("payload 1".toList)) :=
  fence_strip_tolerant ("payload 1".toList) (by decide) (by decide) (by decide)

/-- The progress messages emitted by BookGenerator, as structured data; the
exact strings the source interpolates are given by renderMsg. -/
inductive Msg where
  | starting (totalChapters totalItems : Nat)
  | generating (chapterIdx totalChapters : Nat) (title : String)
  | subchapter (chapterNumber : Int) (idx : Nat) (subTitle : String)
  | completed (chapterIdx totalChapters : Nat) (title : String)
  | done
  | failed (error : String)
  deriving Repr, DecidableEq

/-- The f-strings of book_generator.py for each progress message. -/
def renderMsg : Msg → String
  | .starting nCh nIt =>
      "Starting book generation with " ++ toString nCh ++ " chapters and "
        ++ toString nIt ++ " content items"
  | .generating i n title =>
      "Generating Chapter " ++ toString i ++ "/" ++ toString n ++ ": " ++ title
  | .subchapter n idx sub =>
      "  └── Subchapter " ++ toString n ++ "." ++ toString idx ++ ": " ++ sub
  | .completed i n title =>
      "Completed Chapter " ++ toString i ++ "/" ++ toString n ++ ": " ++ title
  | .done => "Book generation completed successfully!"
  | .failed e => "❌ Book generation failed: " ++ e

/-- The observable events of a generation run, in order: content requests
(calls to content_generator.generate_content, one per unit, the call that
raises included) and progress-callback invocations. Writer calls go to the
external OutputSink and are not recorded. -/
inductive Event where
  | req (prompt : String)
  | cb (message : Msg) (fraction : ℚ)
  deriving Repr, DecidableEq

/-- The intro prompt f-string of _generate_chapter (line 101). -/
def introPrompt (bookTitle : String) (c : Chapter) : String :=
  "Write a concise introduction for Chapter " ++ toString c.number ++ ": '"
    ++ c.title ++ "' in a book titled '" ++ bookTitle ++ "'."

/-- The subchapter prompt f-string of _generate_chapter (lines 113-116). -/
def subchapterPrompt (bookTitle : String) (c : Chapter) (idx : Nat) (subTitle : String) :
    String :=
  "Write a detailed section for Chapter " ++ toString c.number ++ "." ++ toString idx
    ++ ": '" ++ subTitle ++ "' within Chapter " ++ toString c.number ++ ": '"
    ++ c.title ++ "' in a book titled '" ++ bookTitle ++ "'."

/-- The guarded fraction of _generate_chapter line 110:
(current_item + idx) / total_items if total_items > 0 else 0. -/
def fracOf (a b : Nat) : ℚ := if b > 0 then (a : ℚ) / (b : ℚ) else 0

/-- Models the subchapter loop of _generate_chapter (lines 109-118) under an
oracle giving the outcome of each generate_content call by global call index
(error carries the str of the raised BookGenerationError). Returns the events
emitted, the next call index, and the error that aborted the loop, if any. -/
def subLoop (oracle : Nat → Except String String) (bookTitle : String) (c : Chapter)
    (subs : List String) (idx currentItem totalItems callIdx : Nat) :
    List Event × Nat × Option String :=
  match subs with
  | [] => ([], callIdx, none)
  | s :: rest =>
      let e1 := Event.cb (.subchapter c.number idx s) (fracOf (currentItem + idx) totalItems)
      let p := subchapterPrompt bookTitle c idx s
      match oracle callIdx with
      | .error e => ([e1, .req p], callIdx + 1, some e)
      | .ok _ =>
          let r := subLoop oracle bookTitle c rest (idx + 1) currentItem totalItems (callIdx + 1)
          (e1 :: .req p :: r.1, r.2)

/-- Models BookGenerator._generate_chapter (lines 98-118): the intro request,
then the subchapter loop; the chapter-toc/writer calls go to the external
sink. -/
def generateChapterRun (oracle : Nat → Except String String) (bookTitle : String)
    (c : Chapter) (currentItem totalItems callIdx : Nat) :
    List Event × Nat × Option String :=
  let p := introPrompt bookTitle c
  match oracle callIdx with
  | .error e => ([.req p], callIdx + 1, some e)
  | .ok _ =>
      let r := subLoop oracle bookTitle c c.subchapters 1 currentItem totalItems (callIdx + 1)
      (.req p :: r.1, r.2)

/-- Models the chapter loop of generate_book (lines 80-87): announce callback
with current_item / total_items, run the chapter, then on success the
completed callback with the updated fraction. -/
def chaptersLoop (oracle : Nat → Except String String) (bookTitle : String)
    (chapters : List Chapter)
    (chapterIdx totalChapters currentItem totalItems callIdx : Nat) :
    List Event × Nat × Option String :=
  match chapters with
  | [] => ([], callIdx, none)
  | c :: rest =>
      let announce := Event.cb (.generating chapterIdx totalChapters c.title)
        ((currentItem : ℚ) / (totalItems : ℚ))
      let r := generateChapterRun oracle bookTitle c currentItem totalItems callIdx
      match r.2.2 with
      | some e => (announce :: r.1, r.2.1, some e)
      | none =>
          let newItem := currentItem + c.subchapters.length + 1
          let completed := Event.cb (.completed chapterIdx totalChapters c.title)
            ((newItem : ℚ) / (totalItems : ℚ))
          let r2 := chaptersLoop oracle bookTitle rest (chapterIdx + 1) totalChapters
            newItem totalItems r.2.1
          (announce :: r.1 ++ completed :: r2.1, r2.2)

/-- total_items of generate_book line 74: sum over chapters of
len(subchapters) + 1. -/
def totalUnits (chapters : List Chapter) : Nat :=
  (chapters.map (fun c => c.subchapters.length + 1)).sum

/-- Models BookGenerator.generate_book (lines 67-96) given a generated TOC:
the starting callback, the chapter loop, then either the success callback
with fraction 1.0 and the filepath result (modelled as some unit), or — when
a BookGenerationError was raised — the failure callback with fraction -1.0
and a None result. -/
def generate_book (oracle : Nat → Except String String) (bookTitle : String)
    (chapters : List Chapter) : List Event × Option Unit :=
  let totalChapters := chapters.length
  let totalItems := totalUnits chapters
  let r := chaptersLoop oracle bookTitle chapters 1 totalChapters 0 totalItems 0
  match r.2.2 with
  | some e =>
      (Event.cb (.starting totalChapters totalItems) 0 :: r.1
        ++ [Event.cb (.failed e) (-1)], none)
  | none =>
      (Event.cb (.starting totalChapters totalItems) 0 :: r.1
        ++ [Event.cb .done 1], some ())

/-- The events of a successful subchapter loop. -/
def subEventsOk (bookTitle : String) (c : Chapter) (subs : List String)
    (idx currentItem totalItems : Nat) : List Event :=
  match subs with
  | [] => []
  | s :: rest =>
      Event.cb (.subchapter c.number idx s) (fracOf (currentItem + idx) totalItems)
        :: Event.req (subchapterPrompt bookTitle c idx s)
        :: subEventsOk bookTitle c rest (idx + 1) currentItem totalItems

/-- The events of a successful chapter run. -/
def chapterEventsOk (bookTitle : String) (c : Chapter) (currentItem totalItems : Nat) :
    List Event :=
  Event.req (introPrompt bookTitle c)
    :: subEventsOk bookTitle c c.subchapters 1 currentItem totalItems

/-- The events of a successful chapter loop. -/
def chaptersEventsOk (bookTitle : String) (chapters : List Chapter)
    (chapterIdx totalChapters currentItem totalItems : Nat) : List Event :=
  match chapters with
  | [] => []
  | c :: rest =>
      Event.cb (.generating chapterIdx totalChapters c.title)
          ((currentItem : ℚ) / (totalItems : ℚ))
        :: chapterEventsOk bookTitle c currentItem totalItems
        ++ Event.cb (.completed chapterIdx totalChapters c.title)
            (((currentItem + c.subchapters.length + 1 : Nat) : ℚ) / (totalItems : ℚ))
        :: chaptersEventsOk bookTitle rest (chapterIdx + 1) totalChapters
            (currentItem + c.subchapters.length + 1) totalItems

/-- totalUnits distributes over cons. -/
theorem totalUnits_cons (c : Chapter) (rest : List Chapter) :
    totalUnits (c :: rest) = c.subchapters.length + 1 + totalUnits rest := by
  simp [totalUnits]

/-- The subchapter loop succeeds when every call it makes succeeds. -/
theorem subLoop_ok (oracle : Nat → Except String String) (bookTitle : String)
    (c : Chapter) (subs : List String) :
    ∀ idx currentItem totalItems callIdx,
      (∀ k, callIdx ≤ k → k < callIdx + subs.length → ∃ s, oracle k = .ok s) →
      subLoop oracle bookTitle c subs idx currentItem totalItems callIdx
        = (subEventsOk bookTitle c subs idx currentItem totalItems,
           callIdx + subs.length, none) := by
  induction subs with
  | nil => intro idx cur tot ci h; simp [subLoop, subEventsOk]
  | cons s rest ih =>
      intro idx cur tot ci h
      obtain ⟨v, hv⟩ := h ci (le_refl ci) (by simp)
      simp only [subLoop, hv]
      rw [ih (idx + 1) cur tot (ci + 1)
        (fun k h1 h2 => h k (by omega) (by simp at h2 ⊢; omega))]
      have hn : ci + 1 + rest.length = ci + (rest.length + 1) := by omega
      simp [subEventsOk, hn]

/-- A chapter run succeeds when every call it makes succeeds. -/
theorem generateChapterRun_ok (oracle : Nat → Except String String) (bookTitle : String)
    (c : Chapter) (currentItem totalItems callIdx : Nat)
    (h : ∀ k, callIdx ≤ k → k < callIdx + (c.subchapters.length + 1) → ∃ s, oracle k = .ok s) :
    generateChapterRun oracle bookTitle c currentItem totalItems callIdx
      = (chapterEventsOk bookTitle c currentItem totalItems,
         callIdx + (c.subchapters.length + 1), none) := by
  obtain ⟨v, hv⟩ := h callIdx (le_refl _) (by omega)
  simp only [generateChapterRun, hv]
  rw [subLoop_ok oracle bookTitle c c.subchapters 1 currentItem totalItems (callIdx + 1)
    (fun k h1 h2 => h k (by omega) (by omega))]
  have hn : callIdx + 1 + c.subchapters.length = callIdx + (c.subchapters.length + 1) := by
    omega
  simp [chapterEventsOk, hn]

/-- The chapter loop succeeds when every call it makes succeeds. -/
theorem chaptersLoop_ok (oracle : Nat → Except String String) (bookTitle : String)
    (chapters : List Chapter) :
    ∀ chapterIdx totalChapters currentItem totalItems callIdx,
      (∀ k, callIdx ≤ k → k < callIdx + totalUnits chapters → ∃ s, oracle k = .ok s) →
      chaptersLoop oracle bookTitle chapters chapterIdx totalChapters currentItem
          totalItems callIdx
        = (chaptersEventsOk bookTitle chapters chapterIdx totalChapters currentItem
            totalItems, callIdx + totalUnits chapters, none) := by
  induction chapters with
  | nil => intro chIdx totCh cur tot ci h; simp [chaptersLoop, chaptersEventsOk, totalUnits]
  | cons c rest ih =>
      intro chIdx totCh cur tot ci h
      have hcu := totalUnits_cons c rest
      simp only [chaptersLoop]
      rw [generateChapterRun_ok oracle bookTitle c cur tot ci
        (fun k h1 h2 => h k (by omega) (by omega))]
      rw [ih (chIdx + 1) totCh (cur + c.subchapters.length + 1) tot
        (ci + (c.subchapters.length + 1))
        (fun k h1 h2 => h k (by omega) (by omega))]
      have hn : ci + (c.subchapters.length + 1) + totalUnits rest
          = ci + totalUnits (c :: rest) := by omega
      simp [chaptersEventsOk, hn]

/-- A run whose every call succeeds emits the start callback, the successful
chapter loop events and the done callback, and returns the filepath. -/
theorem generate_book_ok (oracle : Nat → Except String String) (bookTitle : String)
    (chapters : List Chapter) (h : ∀ k, ∃ s, oracle k = .ok s) :
    generate_book oracle bookTitle chapters
      = (Event.cb (.starting chapters.length (totalUnits chapters)) 0
          :: chaptersEventsOk bookTitle chapters 1 chapters.length 0 (totalUnits chapters)
          ++ [Event.cb .done 1], some ()) := by
  simp only [generate_book]
  rw [chaptersLoop_ok oracle bookTitle chapters 1 chapters.length 0 (totalUnits chapters) 0
    (fun k h1 h2 => h k)]

/-- The fraction of the first callback in a trace segment. -/
def firstCbFraction : List Event → Option ℚ
  | [] => none
  | Event.cb _ q :: _ => some q
  | Event.req _ :: rest => firstCbFraction rest

/-- For each content request in a trace, the fraction of the first callback
invoked after it — the progress figure reported once that unit has been
generated. -/
def fractionsAfterUnits : List Event → List ℚ
  | [] => []
  | Event.cb _ _ :: rest => fractionsAfterUnits rest
  | Event.req _ :: rest =>
      (match firstCbFraction rest with
       | some q => [q]
       | none => []) ++ fractionsAfterUnits rest

/-- Unfolding fact: a callback at the head is skipped. -/
theorem fractionsAfterUnits_cb (m : Msg) (q : ℚ) (rest : List Event) :
    fractionsAfterUnits (Event.cb m q :: rest) = fractionsAfterUnits rest := rfl

/-- The after-unit fractions across one chapter's request block followed by a
closing callback: one fraction per request, ending with the closing
fraction. -/
theorem fau_sub (bookTitle : String) (c : Chapter) (subs : List String) :
    ∀ idx cur tot (p : String) (m : Msg) (q : ℚ) (zs : List Event),
      fractionsAfterUnits
          (Event.req p :: (subEventsOk bookTitle c subs idx cur tot ++ Event.cb m q :: zs))
        = (List.range subs.length).map (fun (j : Nat) => fracOf (cur + idx + j) tot)
          ++ q :: fractionsAfterUnits zs := by
  induction subs with
  | nil =>
      intro idx cur tot p m q zs
      simp [subEventsOk, fractionsAfterUnits, firstCbFraction]
  | cons s rest ih =>
      intro idx cur tot p m q zs
      simp only [subEventsOk, List.cons_append]
      have h1 : fractionsAfterUnits
          (Event.req p
            :: Event.cb (.subchapter c.number idx s) (fracOf (cur + idx) tot)
            :: Event.req (subchapterPrompt bookTitle c idx s)
            :: (subEventsOk bookTitle c rest (idx + 1) cur tot ++ Event.cb m q :: zs))
          = fracOf (cur + idx) tot
            :: fractionsAfterUnits
              (Event.req (subchapterPrompt bookTitle c idx s)
                :: (subEventsOk bookTitle c rest (idx + 1) cur tot ++ Event.cb m q :: zs)) := by
        rfl
      rw [h1, ih (idx + 1) cur tot _ m q zs]
      simp only [List.length_cons]
      rw [List.range_succ_eq_map, List.map_cons, List.map_map]
      simp only [Nat.add_zero, List.cons_append]
      refine congrArg (fun l => fracOf (cur + idx) tot :: l) ?_
      refine congrArg (fun l => l ++ q :: fractionsAfterUnits zs) ?_
      apply List.map_congr_left
      intro j _
      simp only [Function.comp_apply, Nat.succ_eq_add_one]
      have hn : cur + (idx + 1) + j = cur + idx + (j + 1) := by omega
      rw [hn]

/-- Under a positive unit total, the guarded fraction is plain division. -/
theorem fracOf_pos (a tot : Nat) (h : 0 < tot) :
    fracOf a tot = (a : ℚ) / (tot : ℚ) := by
  simp [fracOf, h]

/-- The after-unit fractions of a successful chapter loop count up one unit at
a time. -/
theorem fau_chapters (bookTitle : String) (chapters : List Chapter) :
    ∀ chapterIdx totalChapters cur tot (zs : List Event), 0 < tot →
      fractionsAfterUnits
          (chaptersEventsOk bookTitle chapters chapterIdx totalChapters cur tot ++ zs)
        = (List.range (totalUnits chapters)).map
            (fun (j : Nat) => ((cur + 1 + j : Nat) : ℚ) / (tot : ℚ))
          ++ fractionsAfterUnits zs := by
  induction chapters with
  | nil => intro chIdx totCh cur tot zs htot; simp [chaptersEventsOk, totalUnits]
  | cons c rest ih =>
      intro chIdx totCh cur tot zs htot
      simp only [chaptersEventsOk, chapterEventsOk, List.cons_append, List.append_assoc]
      rw [fractionsAfterUnits_cb]
      rw [fau_sub bookTitle c c.subchapters 1 cur tot _ _ _ _]
      rw [ih (chIdx + 1) totCh (cur + c.subchapters.length + 1) tot zs htot]
      rw [totalUnits_cons, List.range_add, List.map_append, List.map_map,
        List.range_succ, List.map_append]
      simp only [List.append_assoc, List.cons_append, List.map_cons, List.map_nil,
        List.nil_append, List.singleton_append]
      refine congrArg₂ (fun l1 l2 => l1 ++ l2) ?_ ?_
      · apply List.map_congr_left
        intro j hj
        rw [fracOf_pos _ _ htot]
      · refine congrArg₂ (fun (x : ℚ) l => x :: l) ?_ ?_
        · have hn : cur + c.subchapters.length + 1 = cur + 1 + c.subchapters.length := by
            omega
          rw [hn]
        · refine congrArg (fun l => l ++ fractionsAfterUnits zs) ?_
          apply List.map_congr_left
          intro j hj
          simp only [Function.comp_apply]
          have hn : cur + c.subchapters.length + 1 + 1 + j
              = cur + 1 + (c.subchapters.length + 1 + j) := by omega
          rw [hn]

/-- C1: for every table of contents and every run whose generation calls all
succeed, total_units is the sum over chapters of 1 + subchapter_count, and
the progress callback is invoked after every individual unit — chapter intro
or subchapter — with fraction completed_units / total_units: the fraction of
the first callback following the k-th content request is exactly
(k+1) / total_units, for k = 0 .. total_units - 1 in order. For the 2-chapter
TOC with 1 and 2 subchapters these are 1/5, 2/5, 3/5, 4/5, 5/5 (witness). -/
theorem progress_fractions (bookTitle : String) (chapters : List Chapter)
    (oracle : Nat → Except String String) (h : ∀ k, ∃ s, oracle k = .ok s) :
    totalUnits chapters = (chapters.map (fun c => 1 + c.subchapters.length)).sum
    ∧ fractionsAfterUnits (generate_book oracle bookTitle chapters).1
        = (List.range (totalUnits chapters)).map
            (fun (k : Nat) => ((k + 1 : Nat) : ℚ) / (totalUnits chapters : ℚ)) := by
  constructor
  · unfold totalUnits
    refine congrArg List.sum ?_
    apply List.map_congr_left
    intro c _
    omega
  · rw [generate_book_ok oracle bookTitle chapters h]
    rcases eq_or_ne chapters ([] : List Chapter) with hnil | hnil
    · subst hnil
      simp [chaptersEventsOk, totalUnits, fractionsAfterUnits, firstCbFraction]
    · have htot : 0 < totalUnits chapters := by
        cases chapters with
        | nil => exact absurd rfl hnil
        | cons c rest => rw [totalUnits_cons]; omega
      simp only [List.cons_append]
      rw [fractionsAfterUnits_cb]
      rw [fau_chapters bookTitle chapters 1 chapters.length 0 (totalUnits chapters)
        [Event.cb .done 1] htot]
      simp only [fractionsAfterUnits, List.append_nil]
      apply List.map_congr_left
      intro j _
      have hn : 0 + 1 + j = j + 1 := by omega
      rw [hn]

/-- Witness for C1 at the spec's 2-chapter TOC with 1 and 2 subchapters:
the after-unit fractions are exactly 1/5, 2/5, 3/5, 4/5, 5/5. -/
theorem progress_fractions_witness :
    totalUnits [{ title := "C1", subchapters := ["S11"], number := 1 },
                { title := "C2", subchapters := ["S21", "S22"], number := 2 }] = 5
    ∧ fractionsAfterUnits
        (generate_book (fun _ => .ok "txt") "B"
          [{ title := "C1", subchapters := ["S11"], number := 1 },
           { title := "C2", subchapters := ["S21", "S22"], number := 2 }]).1
        = [1/5, 2/5, 3/5, 4/5, (5 : ℚ)/5] := by
  have h := progress_fractions "B"
    [{ title := "C1", subchapters := ["S11"], number := 1 },
     { title := "C2", subchapters := ["S21", "S22"], number := 2 }]
    (fun _ => Except.ok "txt") (fun k => ⟨"txt", rfl⟩)
  refine ⟨rfl, ?_⟩
  rw [h.2]
  have h5 : totalUnits [{ title := "C1", subchapters := ["S11"], number := 1 },
                { title := "C2", subchapters := ["S21", "S22"], number := 2 }] = 5 := rfl
  rw [h5]
  norm_num [List.range_succ]

/-- Number of content requests in a trace. -/
def reqCount (events : List Event) : Nat :=
  events.countP (fun e => match e with | .req _ => true | _ => false)

/-- reqCount over cons of a callback. -/
theorem reqCount_cb (m : Msg) (q : ℚ) (rest : List Event) :
    reqCount (Event.cb m q :: rest) = reqCount rest := by
  simp [reqCount, List.countP_cons]

/-- reqCount over cons of a request. -/
theorem reqCount_req (p : String) (rest : List Event) :
    reqCount (Event.req p :: rest) = reqCount rest + 1 := by
  simp [reqCount, List.countP_cons]

/-- reqCount over append. -/
theorem reqCount_append (a b : List Event) :
    reqCount (a ++ b) = reqCount a + reqCount b := by
  simp [reqCount, List.countP_append]

/-- A successful subchapter block makes one request per subchapter. -/
theorem reqCount_subEventsOk (bookTitle : String) (c : Chapter) (subs : List String) :
    ∀ idx cur tot, reqCount (subEventsOk bookTitle c subs idx cur tot) = subs.length := by
  induction subs with
  | nil => intro idx cur tot; rfl
  | cons s rest ih =>
      intro idx cur tot
      simp only [subEventsOk, reqCount_cb, reqCount_req, ih, List.length_cons]

/-- A successful chapter block makes one request per unit. -/
theorem reqCount_chapterEventsOk (bookTitle : String) (c : Chapter) (cur tot : Nat) :
    reqCount (chapterEventsOk bookTitle c cur tot) = c.subchapters.length + 1 := by
  simp only [chapterEventsOk, reqCount_req, reqCount_subEventsOk]

/-- A successful subchapter block reports no done signal. -/
theorem noDone_subEventsOk (bookTitle : String) (c : Chapter) (subs : List String) :
    ∀ idx cur tot (q : ℚ),
      Event.cb Msg.done q ∉ subEventsOk bookTitle c subs idx cur tot := by
  induction subs with
  | nil => intro idx cur tot q h; cases h
  | cons s rest ih =>
      intro idx cur tot q h
      rcases List.mem_cons.mp h with h1 | h1
      · cases h1
      · rcases List.mem_cons.mp h1 with h2 | h2
        · cases h2
        · exact ih (idx + 1) cur tot q h2

/-- A successful chapter block reports no done signal. -/
theorem noDone_chapterEventsOk (bookTitle : String) (c : Chapter) (cur tot : Nat) (q : ℚ) :
    Event.cb Msg.done q ∉ chapterEventsOk bookTitle c cur tot := by
  intro h
  rcases List.mem_cons.mp h with h1 | h1
  · cases h1
  · exact noDone_subEventsOk bookTitle c c.subchapters 1 cur tot q h1

/-- A subchapter loop that hits its first failing call at global index j stops
with that error: the failing request is the last one made, one request per
unit attempted, and no done signal is reported. -/
theorem subLoop_fail (oracle : Nat → Except String String) (bookTitle : String)
    (c : Chapter) (subs : List String) :
    ∀ idx cur tot ci j e, ci ≤ j → j < ci + subs.length →
      oracle j = .error e → (∀ i, i < j → ∃ s, oracle i = .ok s) →
      (subLoop oracle bookTitle c subs idx cur tot ci).2.2 = some e
      ∧ reqCount (subLoop oracle bookTitle c subs idx cur tot ci).1 = j - ci + 1
      ∧ ∀ q, Event.cb Msg.done q ∉ (subLoop oracle bookTitle c subs idx cur tot ci).1 := by
  induction subs with
  | nil =>
      intro idx cur tot ci j e h1 h2 herr hok
      exfalso
      simp at h2
      omega
  | cons s rest ih =>
      intro idx cur tot ci j e h1 h2 herr hok
      rcases eq_or_ne ci j with hceq | hcne
      · subst hceq
        simp only [subLoop, herr]
        refine ⟨trivial, ?_, ?_⟩
        · simp only [reqCount_cb, reqCount_req]
          have hz : ci - ci + 1 = 1 := by omega
          rw [hz]
          rfl
        · intro q hq
          rcases List.mem_cons.mp hq with hx | hx
          · cases hx
          · rcases List.mem_cons.mp hx with hy | hy
            · cases hy
            · cases hy
      · have hlt : ci < j := lt_of_le_of_ne h1 hcne
        obtain ⟨v, hv⟩ := hok ci hlt
        simp only [subLoop, hv]
        have hrec := ih (idx + 1) cur tot (ci + 1) j e (by omega)
          (by simp at h2 ⊢; omega) herr hok
        refine ⟨hrec.1, ?_, ?_⟩
        · simp only [reqCount_cb, reqCount_req, hrec.2.1]
          omega
        · intro q hq
          rcases List.mem_cons.mp hq with hx | hx
          · cases hx
          · rcases List.mem_cons.mp hx with hy | hy
            · cases hy
            · exact hrec.2.2 q hy

/-- A chapter run that hits its first failing call at global index j. -/
theorem generateChapterRun_fail (oracle : Nat → Except String String)
    (bookTitle : String) (c : Chapter) (cur tot ci j : Nat) (e : String)
    (h1 : ci ≤ j) (h2 : j < ci + (c.subchapters.length + 1))
    (herr : oracle j = .error e) (hok : ∀ i, i < j → ∃ s, oracle i = .ok s) :
    (generateChapterRun oracle bookTitle c cur tot ci).2.2 = some e
    ∧ reqCount (generateChapterRun oracle bookTitle c cur tot ci).1 = j - ci + 1
    ∧ ∀ q, Event.cb Msg.done q ∉ (generateChapterRun oracle bookTitle c cur tot ci).1 := by
  rcases eq_or_ne ci j with hceq | hcne
  · subst hceq
    simp only [generateChapterRun, herr]
    refine ⟨trivial, ?_, ?_⟩
    · simp only [reqCount_req]
      have hz : ci - ci + 1 = 1 := by omega
      rw [hz]
      rfl
    · intro q hq
      rcases List.mem_cons.mp hq with hx | hx
      · cases hx
      · cases hx
  · have hlt : ci < j := lt_of_le_of_ne h1 hcne
    obtain ⟨v, hv⟩ := hok ci hlt
    simp only [generateChapterRun, hv]
    have hrec := subLoop_fail oracle bookTitle c c.subchapters 1 cur tot (ci + 1) j e
      (by omega) (by omega) herr hok
    refine ⟨hrec.1, ?_, ?_⟩
    · simp only [reqCount_req, hrec.2.1]
      omega
    · intro q hq
      rcases List.mem_cons.mp hq with hx | hx
      · cases hx
      · exact hrec.2.2 q hx

/-- A chapter loop that hits its first failing call at global index j. -/
theorem chaptersLoop_fail (oracle : Nat → Except String String) (bookTitle : String)
    (chapters : List Chapter) :
    ∀ chapterIdx totalChapters cur tot ci j e, ci ≤ j → j < ci + totalUnits chapters →
      oracle j = .error e → (∀ i, i < j → ∃ s, oracle i = .ok s) →
      (chaptersLoop oracle bookTitle chapters chapterIdx totalChapters cur tot ci).2.2
          = some e
      ∧ reqCount
          (chaptersLoop oracle bookTitle chapters chapterIdx totalChapters cur tot ci).1
          = j - ci + 1
      ∧ ∀ q, Event.cb Msg.done q
          ∉ (chaptersLoop oracle bookTitle chapters chapterIdx totalChapters cur tot ci).1 := by
  induction chapters with
  | nil =>
      intro chIdx totCh cur tot ci j e h1 h2 herr hok
      exfalso
      simp [totalUnits] at h2
      omega
  | cons c rest ih =>
      intro chIdx totCh cur tot ci j e h1 h2 herr hok
      have hcu := totalUnits_cons c rest
      by_cases hin : j < ci + (c.subchapters.length + 1)
      · have hch := generateChapterRun_fail oracle bookTitle c cur tot ci j e h1 hin
          herr hok
        simp only [chaptersLoop, hch.1]
        refine ⟨trivial, ?_, ?_⟩
        · simp only [reqCount_cb]
          exact hch.2.1
        · intro q hq
          rcases List.mem_cons.mp hq with hx | hx
          · cases hx
          · exact hch.2.2 q hx
      · push_neg at hin
        have hchok := generateChapterRun_ok oracle bookTitle c cur tot ci
          (fun k hk1 hk2 => hok k (by omega))
        simp only [chaptersLoop, hchok]
        have hrec := ih (chIdx + 1) totCh (cur + c.subchapters.length + 1) tot
          (ci + (c.subchapters.length + 1)) j e (by omega) (by omega) herr hok
        refine ⟨hrec.1, ?_, ?_⟩
        · simp only [reqCount_cb, List.cons_append]
          rw [reqCount_append, reqCount_chapterEventsOk, reqCount_cb, hrec.2.1]
          omega
        · intro q hq
          simp only [List.cons_append] at hq
          rcases List.mem_cons.mp hq with hx | hx
          · cases hx
          · rcases List.mem_append.mp hx with hy | hy
            · exact noDone_chapterEventsOk bookTitle c cur tot q hy
            · rcases List.mem_cons.mp hy with hz | hz
              · cases hz
              · exact hrec.2.2 q hz

/-- C7: a BookGenerationError raised at the (j+1)-th content-generation call
— any chapter intro or subchapter body — aborts the whole run: the failing
request is the last content requested (j+1 requests total, so nothing for any
later unit or chapter), the run's final progress signal is the error callback
with the negative fraction -1 (and -1 < 0), the success signal (fraction 1.0,
completion message) is never reported, and generate_book returns the None
sentinel instead of a filepath. -/
theorem abort_on_generation_error (bookTitle : String) (chapters : List Chapter)
    (oracle : Nat → Except String String) (j : Nat) (e : String)
    (herr : oracle j = .error e) (hok : ∀ i, i < j → ∃ s, oracle i = .ok s)
    (hj : j < totalUnits chapters) :
    (generate_book oracle bookTitle chapters).2 = none
    ∧ reqCount (generate_book oracle bookTitle chapters).1 = j + 1
    ∧ (generate_book oracle bookTitle chapters).1.getLast?
        = some (Event.cb (Msg.failed e) (-1))
    ∧ ((-1 : ℚ) < 0)
    ∧ ∀ q, Event.cb Msg.done q ∉ (generate_book oracle bookTitle chapters).1 := by
  have hfail := chaptersLoop_fail oracle bookTitle chapters 1 chapters.length 0
    (totalUnits chapters) 0 j e (by omega) (by omega) herr hok
  simp only [generate_book, hfail.1]
  refine ⟨trivial, ?_, ?_, by norm_num, ?_⟩
  · simp only [reqCount_cb, List.cons_append]
    rw [reqCount_append, hfail.2.1]
    simp [reqCount]
  · simp only [List.cons_append]
    have hsh : Event.cb
          (Msg.starting chapters.length (totalUnits chapters)) 0
          :: ((chaptersLoop oracle bookTitle chapters 1 chapters.length 0
              (totalUnits chapters) 0).1 ++ [Event.cb (Msg.failed e) (-1)])
        = (Event.cb (Msg.starting chapters.length (totalUnits chapters)) 0
            :: (chaptersLoop oracle bookTitle chapters 1 chapters.length 0
              (totalUnits chapters) 0).1) ++ [Event.cb (Msg.failed e) (-1)] := by
      simp
    rw [hsh, List.getLast?_concat]
  · intro q hq
    simp only [List.cons_append] at hq
    rcases List.mem_cons.mp hq with hx | hx
    · cases hx
    · rcases List.mem_append.mp hx with hy | hy
      · exact hfail.2.2 q hy
      · rcases List.mem_cons.mp hy with hz | hz
        · cases hz
        · cases hz

/-- Witness for C7 at the spec's scenario: the second subchapter of chapter 1
(the third call, index 2) raises; no content for chapter 2 is requested and
the run ends with the error signal. -/
theorem abort_on_generation_error_witness :
    (generate_book (fun k => if k = 2 then .error "boom" else .ok "txt") "B"
        [{ title := "C1", subchapters := ["S11", "S12"], number := 1 },
         { title := "C2", subchapters := ["S21"], number := 2 }]).2 = none
    ∧ reqCount (generate_book (fun k => if k = 2 then .error "boom" else .ok "txt") "B"
        [{ title := "C1", subchapters := ["S11", "S12"], number := 1 },
         { title := "C2", subchapters := ["S21"], number := 2 }]).1 = 2 + 1
    ∧ (generate_book (fun k => if k = 2 then .error "boom" else .ok "txt") "B"
        [{ title := "C1", subchapters := ["S11", "S12"], number := 1 },
         { title := "C2", subchapters := ["S21"], number := 2 }]).1.getLast?
        = some (Event.cb (Msg.failed "boom") (-1))
    ∧ ((-1 : ℚ) < 0)
    ∧ ∀ q, Event.cb Msg.done q
        ∉ (generate_book (fun k => if k = 2 then .error "boom" else .ok "txt") "B"
        [{ title := "C1", subchapters := ["S11", "S12"], number := 1 },
         { title := "C2", subchapters := ["S21"], number := 2 }]).1 :=
  abort_on_generation_error "B"
    [{ title := "C1", subchapters := ["S11", "S12"], number := 1 },
     { title := "C2", subchapters := ["S21"], number := 2 }]
    (fun k => if k = 2 then .error "boom" else .ok "txt") 2 "boom" rfl
    (fun i hi => ⟨"txt", by have hne : i ≠ 2 := by omega
                            simp [hne]⟩)
    (by decide)

/-- Outcome of one underlying Gemini call inside generate_content
(content_generation.py lines 79-109): the call raises, returns a response
with no candidates or parts (blocked, with or without a block reason), or
returns text. -/
inductive UpstreamOutcome where
  | raises (msg : String)
  | blocked (reason details : String)
  | emptyResp
  | text (s : String)
  deriving Repr, DecidableEq

/-- Whether the outcome makes one attempt of generate_content raise. -/
def attemptFails : UpstreamOutcome → Bool
  | .text _ => false
  | _ => true

/-- Models one execution of the body of generate_content: an empty or blocked
response raises a BookGenerationError inside the try block, and every
exception is re-wrapped by the outer handler as
BookGenerationError("Failed to generate content with Gemini: " + str(e)). -/
def attemptBody : UpstreamOutcome → Except PyErr String
  | .raises m =>
      .error (.bookGenerationError ("Failed to generate content with Gemini: " ++ m)
        Option.none)
  | .blocked r d =>
      .error (.bookGenerationError
        ("Failed to generate content with Gemini: "
          ++ "Content generation blocked. Reason: " ++ r ++ ". Details: " ++ d)
        Option.none)
  | .emptyResp =>
      .error (.bookGenerationError
        ("Failed to generate content with Gemini: "
          ++ "Received an empty response from the Gemini API.")
        Option.none)
  | .text s => .ok s

/-- Models tenacity @retry(stop=stop_after_attempt(n), reraise=True) around
the body: run one attempt; on failure, retry while attempts remain, else
reraise the last exception. The first argument is the number of attempts
still allowed (tenacity requires it positive; the 0 case is unreachable and
returns a placeholder error). Returns the result and the number of attempts
made. The oracle gives the outcome of the k-th underlying call. -/
def retryAttempts (oracle : Nat → UpstreamOutcome) : Nat → Nat → Except PyErr String × Nat
  | 0, _ => (.error (.bookGenerationError "no attempts allowed" Option.none), 0)
  | 1, k => (attemptBody (oracle k), 1)
  | n + 2, k =>
      match attemptBody (oracle k) with
      | .ok s => (.ok s, 1)
      | .error _ =>
          let r := retryAttempts oracle (n + 1) (k + 1)
          (r.1, r.2 + 1)

/-- Models ContentGenerator.generate_content (lines 64-109): the retry
decorator with stop_after_attempt(3) and reraise=True around the body. -/
def generate_content (oracle : Nat → UpstreamOutcome) : Except PyErr String × Nat :=
  retryAttempts oracle 3 0

/-- A failing outcome makes the attempt raise a BookGenerationError. -/
theorem attemptBody_fails (o : UpstreamOutcome) (h : attemptFails o = true) :
    ∃ m, attemptBody o = .error (.bookGenerationError m Option.none) := by
  cases o with
  | raises m => exact ⟨_, rfl⟩
  | blocked r d => exact ⟨_, rfl⟩
  | emptyResp => exact ⟨_, rfl⟩
  | text s => simp [attemptFails] at h

/-- C9: the retry policy makes at most 3 attempts per generate call; two
failures then a success within the budget return the successful text with no
error after exactly 3 attempts; three consecutive failures surface the last
BookGenerationError after exactly 3 attempts, never retrying further. -/
theorem retry_policy (oracle : Nat → UpstreamOutcome) :
    (generate_content oracle).2 ≤ 3
    ∧ (∀ s : String,
        attemptFails (oracle 0) = true → attemptFails (oracle 1) = true →
        oracle 2 = .text s →
        generate_content oracle = (.ok s, 3))
    ∧ (attemptFails (oracle 0) = true → attemptFails (oracle 1) = true →
        attemptFails (oracle 2) = true →
        (generate_content oracle).2 = 3
        ∧ (generate_content oracle).1 = attemptBody (oracle 2)
        ∧ ∃ m, (generate_content oracle).1
            = .error (.bookGenerationError m Option.none)) := by
  refine ⟨?_, ?_, ?_⟩
  · unfold generate_content
    cases hb0 : attemptBody (oracle 0) with
    | ok s => simp [retryAttempts, hb0]
    | error e0 =>
        cases hb1 : attemptBody (oracle 1) with
        | ok s => simp [retryAttempts, hb0, hb1]
        | error e1 => simp [retryAttempts, hb0, hb1]
  · intro s h0 h1 h2
    obtain ⟨m0, hb0⟩ := attemptBody_fails _ h0
    obtain ⟨m1, hb1⟩ := attemptBody_fails _ h1
    have hb2 : attemptBody (oracle 2) = .ok s := by rw [h2]; rfl
    unfold generate_content
    simp [retryAttempts, hb0, hb1, hb2]
  · intro h0 h1 h2
    obtain ⟨m0, hb0⟩ := attemptBody_fails _ h0
    obtain ⟨m1, hb1⟩ := attemptBody_fails _ h1
    obtain ⟨m2, hb2⟩ := attemptBody_fails _ h2
    unfold generate_content
    refine ⟨?_, ?_, ⟨m2, ?_⟩⟩
    · simp [retryAttempts, hb0, hb1, hb2]
    · simp [retryAttempts, hb0, hb1, hb2]
    · simp [retryAttempts, hb0, hb1, hb2]

/-- Witness for C9: an upstream that fails twice then succeeds yields the
text after exactly 3 attempts; an upstream that always fails surfaces the
last wrapped error after exactly 3 attempts. -/
theorem retry_policy_witness :
    generate_content (fun k => if k < 2 then .raises "rate limit" else .text "good")
        = (.ok "good", 3)
    ∧ (generate_content (fun _ => .raises "down")).2 = 3
    ∧ (generate_content (fun _ => .raises "down")).1
        = attemptBody (UpstreamOutcome.raises "down") :=
  ⟨(retry_policy (fun k => if k < 2 then .raises "rate limit" else .text "good")).2.1
      "good" rfl rfl rfl,
   ((retry_policy (fun _ => .raises "down")).2.2 rfl rfl rfl).1,
   ((retry_policy (fun _ => .raises "down")).2.2 rfl rfl rfl).2.1⟩
